import Mathlib

/-!
Shallow embedding of the godstow-river-flow scripts
(`scripts/update_prediction_model.py` and `scripts/fetch_data.py`).

Timestamps and measured values are modelled as rationals; a timestamp is
expressed in hours so that the Python `(ts - peak_ts).total_seconds() / 3600`
becomes plain subtraction.  Where the scripts key dictionaries by ISO-8601
timestamp strings the embedding keys association lists by `String`.
Python `float` arithmetic is modelled exactly over `ℚ`; a float division by
zero (Python `ZeroDivisionError`) is modelled as an explicit undefined
outcome (`Option.none` or `FitResult.undefined`).
-/

/-- Python float division `a / b`: a zero divisor raises `ZeroDivisionError`,
modelled as `none`. -/
def pyDiv (a b : ℚ) : Option ℚ := if b = 0 then none else some (a / b)

/-- Python `int()` applied to a float: truncation toward zero. -/
def pyInt (q : ℚ) : ℤ := if q < 0 then -⌊-q⌋ else ⌊q⌋

/-- Python list indexing `l[i]` including the negative-index convention
(`l[-1]` is the last element).  Out-of-range accesses, which raise in
Python, return the junk value `0` here; no claim exercises them. -/
def pyGet (l : List ℚ) (i : ℤ) : ℚ :=
  if i < 0 then l.getD (l.length - (-i).toNat) 0 else l.getD i.toNat 0

/-- Python slice `l[start:stop]` with a nonnegative `start` and a possibly
negative `stop` (a negative `stop` counts from the end of the list, the
behaviour that matters for the decay fitter's baseline window). -/
def pySlice {α : Type} (l : List α) (start : ℕ) (stop : ℤ) : List α :=
  let stopN : ℕ := if stop < 0 then l.length - (-stop).toNat else stop.toNat
  (l.take stopN).drop start

/-- Python `max()` on a list of floats (`0` on the empty list, which would
raise in Python; all uses here are on nonempty windows). -/
def pyMax : List ℚ → ℚ
  | [] => 0
  | v :: vs => vs.foldl max v

/-- Python `min()` on a list of floats; `none` models the `ValueError`
raised on an empty list. -/
def pyMin : List ℚ → Option ℚ
  | [] => none
  | v :: vs => some (vs.foldl min v)

/-! ## ReadingStore: dict-based merge (`update_history` in `fetch_data.py`,
`fetch_historic_data` in `update_prediction_model.py`) -/

/-- The keys of an association list modelling a Python dict held in
insertion order. -/
def keys (m : List (String × ℚ)) : List String := m.map Prod.fst

/-- Python `d[k] = v` on an insertion-ordered dict: an existing key is
updated in place, a new key is appended at the end. -/
def upsert (m : List (String × ℚ)) (k : String) (v : ℚ) : List (String × ℚ) :=
  if k ∈ keys m then m.map (fun p => if p.1 = k then (k, v) else p) else m ++ [(k, v)]

/-- The value the last entry of `m` with key `k` carries (what a Python dict
comprehension or repeated assignment leaves behind), `none` if `k` never
occurs. -/
def lastVal (m : List (String × ℚ)) (k : String) : Option ℚ :=
  m.foldl (fun acc p => if p.1 = k then some p.2 else acc) none

/-- The dict comprehension building a timestamp-to-value dict from a history
list (later duplicates win, first-occurrence insertion order). -/
def toDict (l : List (String × ℚ)) : List (String × ℚ) :=
  l.foldl (fun m r => upsert m r.1 r.2) []

/-- The merge step shared by `update_history` and `fetch_historic_data`:
build a dict from the existing history, then upsert every incoming reading
by timestamp (incoming wins on collision). -/
def merge (existing incoming : List (String × ℚ)) : List (String × ℚ) :=
  incoming.foldl (fun m r => upsert m r.1 r.2) (toDict existing)

/-! ## EnsembleStatistics: `calculate_percentile` in `fetch_data.py` -/

/-- `calculate_percentile(values, percentile)` from `fetch_data.py`. -/
def calculate_percentile (values : List ℚ) (percentile : ℚ) : Option ℚ :=
  if values = [] then none else
  let sorted_values := values.insertionSort (· ≤ ·)
  let index := (percentile / 100) * ((sorted_values.length : ℚ) - 1)
  let lower : ℤ := pyInt index
  let upper : ℤ := lower + 1
  let weight : ℚ := index - (lower : ℚ)
  if (sorted_values.length : ℤ) ≤ upper then some (pyGet sorted_values (-1))
  else some (pyGet sorted_values lower * (1 - weight) + pyGet sorted_values upper * weight)

/-- Modelled from the spec's words for the percentile claim: sort, take
`index = (p/100)·(n−1)`, interpolate linearly between the elements at
`floor(index)` and `ceil(index)`, clamping the upper index to `n−1`. -/
def percentileSpec (values : List ℚ) (p : ℚ) : ℚ :=
  let s := values.insertionSort (· ≤ ·)
  let index := (p / 100) * ((s.length : ℚ) - 1)
  let lo := (⌊index⌋).toNat
  let hi := min (⌈index⌉).toNat (s.length - 1)
  s.getD lo 0 + (index - (⌊index⌋ : ℚ)) * (s.getD hi 0 - s.getD lo 0)

/-! ## RegressionModel: `calculate_model_parameters` in
`update_prediction_model.py` -/

/-- The record returned by `calculate_model_parameters`.  Python's
`correlation` is `cov / sqrt(var_farm * var_flow)`; since the square root
of a rational is irrational in general the embedding records `cov`,
`var_farm` and `var_flow`, which determine it, instead of the quotient. -/
structure RegressionParams where
  slope : ℚ
  intercept : ℚ
  r_squared : ℚ
  cov : ℚ
  var_farm : ℚ
  var_flow : ℚ
  n_samples : ℕ
  green_amber : ℚ
  amber_red : ℚ
deriving DecidableEq

/-- Outcome of `calculate_model_parameters`: `insufficient` is the
`ValueError` raised when fewer than 100 paired samples exist, `undefined`
is an unguarded float division by zero (`ZeroDivisionError`), `ok` is a
normal return. -/
inductive FitResult where
  | insufficient : FitResult
  | undefined : FitResult
  | ok : RegressionParams → FitResult
deriving DecidableEq

/-- The threshold inversion `(y_target - intercept) / slope` performed at
the end of `calculate_model_parameters` (the spec's `invert`).  The
division is unguarded in the source, so slope `0` is the undefined case. -/
def invert (slope intercept y_target : ℚ) : Option ℚ :=
  pyDiv (y_target - intercept) slope

/-- `sum((x - m)**2 for x in l)`. -/
def ssOf (l : List ℚ) (m : ℚ) : ℚ := (l.map (fun x => (x - m) ^ 2)).sum

/-- `sum((f - mx) * (fl - my) for f, fl in pd)`. -/
def covSumOf (pd : List (ℚ × ℚ)) (mx my : ℚ) : ℚ :=
  (pd.map (fun p => (p.1 - mx) * (p.2 - my))).sum

/-- `sum(l) / n`; the source divides by `n = len(paired_data)`, which the
`map` over the pairs preserves. -/
def meanOf (l : List ℚ) : ℚ := l.sum / (l.length : ℚ)

/-- The OLS slope `Σ(x−x̄)(y−ȳ) / Σ(x−x̄)²` of `calculate_model_parameters`. -/
def slopeOf (pd : List (ℚ × ℚ)) : ℚ :=
  covSumOf pd (meanOf (pd.map Prod.fst)) (meanOf (pd.map Prod.snd)) /
    ssOf (pd.map Prod.fst) (meanOf (pd.map Prod.fst))

/-- `intercept = mean_flow - slope * mean_farm`. -/
def interceptOf (pd : List (ℚ × ℚ)) : ℚ :=
  meanOf (pd.map Prod.snd) - slopeOf pd * meanOf (pd.map Prod.fst)

/-- `ss_res`: residual sum of squares against the fitted line. -/
def ssResOf (pd : List (ℚ × ℚ)) : ℚ :=
  (pd.map (fun p => (p.2 - (slopeOf pd * p.1 + interceptOf pd)) ^ 2)).sum

/-- The regression core of `calculate_model_parameters`, starting from the
paired `(farmoor, flow)` samples.  Guard order follows the source: the
`n < 100` check raises `ValueError`; then the slope denominator `Σ(x−x̄)²`,
the `R²` denominator `ss_tot = Σ(y−ȳ)²`, the correlation denominator
`sqrt(var_farm * var_flow)` (zero exactly when the variance product is)
and the two unguarded threshold divisions by `slope` each raise
`ZeroDivisionError` when zero. -/
def fit_regression (paired_data : List (ℚ × ℚ)) : FitResult :=
  if paired_data.length < 100 then .insufficient else
  if ssOf (paired_data.map Prod.fst) (meanOf (paired_data.map Prod.fst)) = 0 then .undefined else
  if ssOf (paired_data.map Prod.snd) (meanOf (paired_data.map Prod.snd)) = 0 then .undefined else
  if ssOf (paired_data.map Prod.fst) (meanOf (paired_data.map Prod.fst)) / (paired_data.length : ℚ) *
      (ssOf (paired_data.map Prod.snd) (meanOf (paired_data.map Prod.snd)) / (paired_data.length : ℚ)) = 0
    then .undefined else
  match invert (slopeOf paired_data) (interceptOf paired_data) (45 / 100),
      invert (slopeOf paired_data) (interceptOf paired_data) (75 / 100) with
  | some ga, some ar =>
      .ok ⟨slopeOf paired_data, interceptOf paired_data,
        1 - ssResOf paired_data /
          ssOf (paired_data.map Prod.snd) (meanOf (paired_data.map Prod.snd)),
        covSumOf paired_data (meanOf (paired_data.map Prod.fst))
            (meanOf (paired_data.map Prod.snd)) / (paired_data.length : ℚ),
        ssOf (paired_data.map Prod.fst) (meanOf (paired_data.map Prod.fst)) /
          (paired_data.length : ℚ),
        ssOf (paired_data.map Prod.snd) (meanOf (paired_data.map Prod.snd)) /
          (paired_data.length : ℚ),
        paired_data.length, ga, ar⟩
  | _, _ => .undefined

/-- The pairing step of `calculate_model_parameters`: the flow differential
`godstow - osney - 1.63` on shared timestamps, paired with the farmoor
value on timestamps also present there, iterated in godstow dict order. -/
def paired_samples (godstow osney farmoor : List (String × ℚ)) : List (ℚ × ℚ) :=
  (toDict godstow).filterMap (fun p =>
    match lastVal osney p.1, lastVal farmoor p.1 with
    | some ov, some fv => some (fv, (p.2 - ov) - 163 / 100)
    | _, _ => none)

/-- `calculate_model_parameters` from `update_prediction_model.py`. -/
def calculate_model_parameters (godstow osney farmoor : List (String × ℚ)) : FitResult :=
  fit_regression (paired_samples godstow osney farmoor)

/-! ## PeakDetector: `_find_peaks` in `update_prediction_model.py` -/

/-- The closed window of values `readings[i-window .. i+window]`. -/
def windowVals (readings : List (ℚ × ℚ)) (i window : ℕ) : List ℚ :=
  (List.range' (i - window) (2 * window + 1)).map (fun j => (readings.getD j (0, 0)).2)

/-- One iteration of the `_find_peaks` loop.  The accumulator keeps the
accepted peaks in reverse order, so Python's `peaks[-1]` is the head. -/
def peakStep (readings : List (ℚ × ℚ)) (min_peak : ℚ) (window : ℕ) (min_gap : ℚ)
    (acc : List (ℕ × ℚ × ℚ)) (i : ℕ) : List (ℕ × ℚ × ℚ) :=
  let r := readings.getD i (0, 0)
  if r.2 < min_peak then acc
  else if r.2 = pyMax (windowVals readings i window) then
    match acc with
    | [] => [(i, r.1, r.2)]
    | p :: rest =>
      if min_gap < r.1 - p.2.1 then (i, r.1, r.2) :: p :: rest
      else if p.2.2 < r.2 then (i, r.1, r.2) :: rest
      else p :: rest
  else acc

/-- `_find_peaks(readings, min_peak, window, min_gap)`: scan indices
`window ≤ i < len - window`, accept a candidate whose value is `≥ min_peak`
and equals the window maximum, merging candidates within `min_gap` of the
previously accepted peak (larger value replaces it). -/
def find_peaks (readings : List (ℚ × ℚ)) (min_peak : ℚ) (window : ℕ) (min_gap : ℚ) :
    List (ℕ × ℚ × ℚ) :=
  ((List.range' window (readings.length - 2 * window)).foldl
    (peakStep readings min_peak window min_gap) []).reverse

/-! ## DecayCurveFitter: `_fit_exponential_decay` in
`update_prediction_model.py` -/

/-- A fitted decay record as built by `_fit_exponential_decay`. -/
structure DecayFit where
  peak_time : ℚ
  peak_val : ℚ
  baseline : ℚ
  amplitude : ℚ
  tau_hours : ℚ
  half_life_hours : ℚ
  r_squared : ℚ
  fit_points : ℕ
deriving DecidableEq

/-- The baseline candidate window of `_fit_exponential_decay`:
`readings[max(0, idx - 84):idx - 12]`, falling back to
`readings[max(0, idx - 84):idx]` when empty.  Note that for `idx < 12`
Python's `idx - 12` is a negative slice bound counting from the end of the
list. -/
def baselineCandidates (readings : List (ℚ × ℚ)) (idx : ℕ) : List ℚ :=
  let br := (pySlice readings (idx - 84) ((idx : ℤ) - 12)).map Prod.snd
  if br = [] then (pySlice readings (idx - 84) (idx : ℤ)).map Prod.snd else br

/-- The baseline of a peak: the minimum of the candidate window, `none`
when both windows are empty (the peak is skipped). -/
def baselineOf (readings : List (ℚ × ℚ)) (idx : ℕ) : Option ℚ :=
  pyMin (baselineCandidates readings idx)

/-- The break condition of the decay-point collection loop at index `j`:
the next accepted peak has been reached, or (once more than 12 hours past
the peak and more than 3 points in) the value rose by more than
`min_rise` over the last 3 grid points. -/
def riseStop (readings : List (ℚ × ℚ)) (idx : ℕ) (peak_ts min_rise : ℚ)
    (next_ts : Option ℚ) (j : ℕ) : Bool :=
  let r := readings.getD j (0, 0)
  (match next_ts with | some nt => decide (nt ≤ r.1) | none => false) ||
    (decide (12 < r.1 - peak_ts) && decide (idx + 3 < j) &&
      decide ((readings.getD (j - 3) (0, 0)).2 + min_rise < r.2))

/-- The decay points `(hours since peak, value)` collected from the peak
index forward, up to 180 grid points, stopping at the first break. -/
def decayPoints (readings : List (ℚ × ℚ)) (idx : ℕ) (peak_ts min_rise : ℚ)
    (next_ts : Option ℚ) : List (ℚ × ℚ) :=
  ((List.range' idx (min (idx + 180) readings.length - idx)).takeWhile
    (fun j => ! riseStop readings idx peak_ts min_rise next_ts j)).map
    (fun j => ((readings.getD j (0, 0)).1 - peak_ts, (readings.getD j (0, 0)).2))

/-- The log-linear regression block of `_fit_exponential_decay`: ordinary
least squares of `ln(ratio)` on hours, rejecting fewer than 4 points, a
zero OLS denominator, a nonnegative slope, and `R² ≤ 0.5`. -/
def olsFit (ln2 peak_ts peak_val baseline amplitude : ℚ)
    (log_points : List (ℚ × ℚ)) : Option DecayFit :=
  if log_points.length < 4 then none else
  let n : ℚ := log_points.length
  let sum_x := (log_points.map Prod.fst).sum
  let sum_y := (log_points.map Prod.snd).sum
  let sum_xy := (log_points.map (fun q => q.1 * q.2)).sum
  let sum_xx := (log_points.map (fun q => q.1 ^ 2)).sum
  let denom := n * sum_xx - sum_x ^ 2
  if denom = 0 then none else
  let slope := (n * sum_xy - sum_x * sum_y) / denom
  if 0 ≤ slope then none else
  let tau := -1 / slope
  let half_life := tau * ln2
  let mean_y := sum_y / n
  let ss_tot : ℚ := (log_points.map (fun q => (q.2 - mean_y) ^ 2)).sum
  let ss_res : ℚ := (log_points.map (fun q => (q.2 - slope * q.1) ^ 2)).sum
  let r_sq := if 0 < ss_tot then 1 - ss_res / ss_tot else 0
  if 1 / 2 < r_sq then
    some ⟨peak_ts, peak_val, baseline, amplitude, tau, half_life, r_sq,
      log_points.length⟩
  else none

/-- The log-point filter of `_fit_exponential_decay`: keep
`(hours, log(ratio))` for the decay points whose ratio
`(val - baseline) / amplitude` lies in `(0.01, 1]`.  Python would raise
`ZeroDivisionError` here when a non-positive `min_rise_threshold` lets
`amplitude == 0` through; ℚ division is total so that case instead yields
ratio `0`, which the `0.01 <` filter drops. -/
def logPoints (lg : ℚ → ℚ) (baseline amplitude : ℚ) (dps : List (ℚ × ℚ)) :
    List (ℚ × ℚ) :=
  dps.filterMap (fun q =>
    let frac := (q.2 - baseline) / amplitude
    if 1 / 100 < frac ∧ frac ≤ 1 then some (q.1, lg frac) else none)

/-- The per-peak body of `_fit_exponential_decay` after the baseline has
been found: `amplitude = peak_val - baseline` must reach the rise
threshold, at least 6 decay points must be collected, and the log-linear
regression block decides the rest. -/
def fitFromBaseline (lg : ℚ → ℚ) (ln2 : ℚ) (readings : List (ℚ × ℚ)) (min_rise : ℚ)
    (idx : ℕ) (peak_ts peak_val : ℚ) (next_ts : Option ℚ) (baseline : ℚ) :
    Option DecayFit :=
  if peak_val - baseline < min_rise then none else
  if (decayPoints readings idx peak_ts min_rise next_ts).length < 6 then none else
  olsFit ln2 peak_ts peak_val baseline (peak_val - baseline)
    (logPoints lg baseline (peak_val - baseline)
      (decayPoints readings idx peak_ts min_rise next_ts))

/-- The per-peak body of `_fit_exponential_decay`.  `lg` is the natural
logarithm `math.log` and `ln2` the constant `math.log(2)`: both are
irrational-valued on ℚ, so the embedding takes them as parameters; every
invariant proved below holds for an arbitrary choice.  A peak whose
baseline windows are both empty is skipped. -/
def fitPeak (lg : ℚ → ℚ) (ln2 : ℚ) (readings : List (ℚ × ℚ)) (min_rise : ℚ)
    (pk : (ℕ × ℚ × ℚ) × Option ℚ) : Option DecayFit :=
  (baselineOf readings pk.1.1).elim none
    (fitFromBaseline lg ln2 readings min_rise pk.1.1 pk.1.2.1 pk.1.2.2 pk.2)

/-- Pair each peak with the timestamp of the following peak
(`peaks[p_idx + 1][1]` when it exists). -/
def withNext : List (ℕ × ℚ × ℚ) → List ((ℕ × ℚ × ℚ) × Option ℚ)
  | [] => []
  | [p] => [(p, none)]
  | p :: q :: rest => (p, some q.2.1) :: withNext (q :: rest)

/-- `_fit_exponential_decay(readings, peaks, min_rise_threshold)`,
parametric in the logarithm `lg` and the constant `ln2 = math.log(2)`. -/
def fit_exponential_decay (lg : ℚ → ℚ) (ln2 : ℚ) (readings : List (ℚ × ℚ))
    (peaks : List (ℕ × ℚ × ℚ)) (min_rise : ℚ) : List DecayFit :=
  (withNext peaks).filterMap (fitPeak lg ln2 readings min_rise)

/-! ## Summary: `_summarise_decay` in `update_prediction_model.py` -/

/-- The summary record built by `_summarise_decay`. -/
structure DecaySummary where
  tau_hours_mean : ℚ
  tau_hours_median : ℚ
  half_life_hours_mean : ℚ
  half_life_hours_median : ℚ
  baseline : ℚ
  n_peaks : ℕ
deriving DecidableEq

/-- `_summarise_decay(fits, default_tau, baseline)`, parametric in
`ln2 = math.log(2)` which the source multiplies into the default half-life.
The source's median is `sorted[len // 2]`. -/
def summarise_decay (ln2 : ℚ) (fits : List DecayFit) (default_tau baseline : ℚ) :
    DecaySummary :=
  if fits = [] then
    ⟨default_tau, default_tau, default_tau * ln2, default_tau * ln2, baseline, 0⟩
  else
    let taus := fits.map DecayFit.tau_hours
    let halflives := fits.map DecayFit.half_life_hours
    let taus_sorted := taus.insertionSort (· ≤ ·)
    let hl_sorted := halflives.insertionSort (· ≤ ·)
    ⟨taus.sum / (taus.length : ℚ), taus_sorted.getD (taus.length / 2) 0,
      halflives.sum / (halflives.length : ℚ), hl_sorted.getD (halflives.length / 2) 0,
      baseline, fits.length⟩

/-- Modelled from the spec's word "median": the conventional median of a
list, averaging the two middle elements of the sorted order when the
length is even. -/
def medianSpec (l : List ℚ) : ℚ :=
  let s := l.insertionSort (· ≤ ·)
  if l.length % 2 = 1 then s.getD (l.length / 2) 0
  else (s.getD (l.length / 2 - 1) 0 + s.getD (l.length / 2) 0) / 2

/-! ## Concrete inputs used by witnesses and counterexamples -/

/-- The spec's peak-detection example series, timestamped by index. -/
def peakSeries : List (ℚ × ℚ) := [(0, 0), (1, 1), (2, 5), (3, 9), (4, 5), (5, 1), (6, 0)]

/-- 100 godstow readings keyed by decimal timestamps. -/
def exG : List (String × ℚ) := (List.range 100).map (fun i => (toString i, (i : ℚ) + 163 / 100))

/-- 100 osney readings on the same timestamps, all zero. -/
def exO : List (String × ℚ) := (List.range 100).map (fun i => (toString i, 0))

/-- 100 farmoor readings on the same timestamps, value `i`. -/
def exF : List (String × ℚ) := (List.range 100).map (fun i => (toString i, (i : ℚ)))

/-- 100 identical paired samples: the x-values are all equal, so the
regression's slope denominator is zero. -/
def pdConst : List (ℚ × ℚ) := (List.range 100).map (fun _ => ((5 : ℚ), (3 : ℚ)))

/-- 100 paired samples with zero covariance but nonconstant x and y: the
regression slope is exactly 0, so the threshold division is by zero. -/
def pdZeroSlope : List (ℚ × ℚ) :=
  (List.range 100).map (fun i =>
    ((if i % 2 = 0 then 0 else 1 : ℚ), (if i % 4 < 2 then 0 else 1 : ℚ)))

/-- A 2-hour-grid series whose minimum (−5) sits immediately after the
peak at index 6; every pre-peak value is nonnegative. -/
def c4Readings : List (ℚ × ℚ) :=
  [(0, 1), (2, 2), (4, 3), (6, 4), (8, 5), (10, 6), (12, 9), (14, -5),
   (16, 1), (18, 1), (20, 1), (22, 1), (24, 1), (26, 1)]

/-- Values of the synthetic decay series: flat 0 before the peak at index
13, then a straight decline from 1 in steps of 1/20. -/
def exVal (j : ℕ) : ℚ := if j ≤ 12 then 0 else ((33 : ℚ) - j) / 20

/-- The synthetic decay series on the 2-hour grid. -/
def exReadings : List (ℚ × ℚ) := (List.range 20).map (fun (j : ℕ) => (2 * (j : ℚ), exVal j))

/-- Its single peak, at index 13. -/
def exPeaks : List (ℕ × ℚ × ℚ) := [(13, 26, 1)]

/-- A stand-in logarithm making the synthetic series' log points exactly
linear; the decay invariants hold for any choice. -/
def exLog : ℚ → ℚ := fun r => 20 * r - 20

/-- The decay fit produced on the synthetic series with `ln2 := 7/10`. -/
def exFit : DecayFit := ⟨26, 1, 0, 1, 2, 7 / 5, 1, 7⟩

/-- A decay fit with `tau_hours = 10`. -/
def exFitA : DecayFit := ⟨0, 0, 0, 0, 10, 7, 0, 0⟩

/-- A decay fit with `tau_hours = 20`. -/
def exFitB : DecayFit := ⟨0, 0, 0, 0, 20, 14, 0, 0⟩

set_option maxRecDepth 1000000

/-! # Theorems

## Dict upsert and merge (claim C7) -/

theorem keys_map_subst (m : List (String × ℚ)) (k : String) (v : ℚ) :
    keys (m.map (fun p => if p.1 = k then (k, v) else p)) = keys m := by
  simp only [keys, List.map_map]
  apply List.map_congr_left
  intro p _
  by_cases h : p.1 = k <;> simp [Function.comp, h]

theorem mem_keys_upsert_self (m : List (String × ℚ)) (k : String) (v : ℚ) :
    k ∈ keys (upsert m k v) := by
  unfold upsert
  split
  · next h => rw [keys_map_subst]; exact h
  · simp [keys]

theorem mem_keys_upsert_of_mem {m : List (String × ℚ)} {a : String} (k : String) (v : ℚ)
    (h : a ∈ keys m) : a ∈ keys (upsert m k v) := by
  unfold upsert
  split
  · rw [keys_map_subst]; exact h
  · simp only [keys, List.map_append]
    exact List.mem_append_left _ h

theorem mem_keys_foldl_upsert (B : List (String × ℚ)) :
    ∀ (m : List (String × ℚ)) (a : String),
      a ∈ keys B ∨ a ∈ keys m →
      a ∈ keys (B.foldl (fun m r => upsert m r.1 r.2) m) := by
  induction B with
  | nil =>
    intro m a h
    rcases h with h | h
    · simp [keys] at h
    · simpa using h
  | cons b B ih =>
    intro m a h
    simp only [List.foldl_cons]
    apply ih
    rcases h with h | h
    · simp only [keys, List.map_cons, List.mem_cons] at h
      rcases h with rfl | h
      · exact Or.inr (mem_keys_upsert_self m b.1 b.2)
      · exact Or.inl h
    · exact Or.inr (mem_keys_upsert_of_mem _ _ h)

theorem foldl_lastVal_step (k : String) (B : List (String × ℚ)) :
    ∀ init : Option ℚ,
      B.foldl (fun acc p => if p.1 = k then some p.2 else acc) init =
        (lastVal B k).elim init some := by
  induction B with
  | nil => intro init; simp [lastVal]
  | cons b B ih =>
    intro init
    have hcons : lastVal (b :: B) k =
        (lastVal B k).elim (if b.1 = k then some b.2 else none) some := by
      unfold lastVal
      simp only [List.foldl_cons]
      rw [ih]
      rfl
    simp only [List.foldl_cons]
    rw [ih, hcons]
    cases lastVal B k <;> by_cases h : b.1 = k <;> simp [h]

theorem lastVal_cons (b : String × ℚ) (B : List (String × ℚ)) (k : String) :
    lastVal (b :: B) k = (lastVal B k).elim (if b.1 = k then some b.2 else none) some := by
  unfold lastVal
  simp only [List.foldl_cons]
  rw [foldl_lastVal_step]
  rfl

theorem upsert_of_mem {m : List (String × ℚ)} {k : String} (v : ℚ) (h : k ∈ keys m) :
    upsert m k v = m.map (fun p => if p.1 = k then (k, v) else p) := by
  unfold upsert
  rw [if_pos h]

theorem foldl_upsert_of_keys_subset :
    ∀ (B m : List (String × ℚ)), (∀ a ∈ keys B, a ∈ keys m) →
      B.foldl (fun m r => upsert m r.1 r.2) m =
        m.map (fun p => (p.1, (lastVal B p.1).getD p.2)) := by
  intro B
  induction B with
  | nil =>
    intro m _
    simp [lastVal]
  | cons b B ih =>
    intro m hsub
    have hb : b.1 ∈ keys m := hsub b.1 (by simp [keys])
    simp only [List.foldl_cons]
    rw [upsert_of_mem b.2 hb,
      ih _ (by intro a ha; rw [keys_map_subst]; exact hsub a (List.mem_cons_of_mem b.1 ha)),
      List.map_map]
    apply List.map_congr_left
    intro p _
    by_cases hpk : p.1 = b.1
    · simp only [Function.comp_apply, if_pos hpk]
      rw [hpk, lastVal_cons]
      simp only [if_pos rfl]
      cases hl : lastVal B b.1 <;> simp [hl]
    · simp only [Function.comp_apply, if_neg hpk]
      rw [lastVal_cons]
      have hbp : ¬ b.1 = p.1 := fun hc => hpk hc.symm
      cases hl : lastVal B p.1 <;> simp [hl, hbp]

theorem mem_upsert {m : List (String × ℚ)} {k : String} {v : ℚ} {a : String} {w : ℚ}
    (h : (a, w) ∈ upsert m k v) : (a = k ∧ w = v) ∨ ((a, w) ∈ m ∧ a ≠ k) := by
  unfold upsert at h
  split at h
  · rcases List.mem_map.mp h with ⟨p, hp, he⟩
    by_cases hpk : p.1 = k
    · rw [if_pos hpk] at he
      cases he
      exact Or.inl ⟨rfl, rfl⟩
    · rw [if_neg hpk] at he
      subst he
      exact Or.inr ⟨hp, hpk⟩
  · next hk =>
    rcases List.mem_append.mp h with h' | h'
    · refine Or.inr ⟨h', fun hak => hk ?_⟩
      subst hak
      exact List.mem_map_of_mem Prod.fst h'
    · simp only [List.mem_singleton, Prod.mk.injEq] at h'
      exact Or.inl h'

theorem mem_foldl_upsert :
    ∀ (B m : List (String × ℚ)) (a : String) (w : ℚ),
      (a, w) ∈ B.foldl (fun m r => upsert m r.1 r.2) m →
      lastVal B a = some w ∨ (lastVal B a = none ∧ (a, w) ∈ m) := by
  intro B
  induction B with
  | nil =>
    intro m a w h
    exact Or.inr ⟨rfl, by simpa using h⟩
  | cons b B ih =>
    intro m a w h
    simp only [List.foldl_cons] at h
    rcases ih _ _ _ h with h1 | ⟨h1, h2⟩
    · left
      rw [lastVal_cons, h1]
      rfl
    · rcases mem_upsert h2 with ⟨rfl, rfl⟩ | ⟨h3, h4⟩
      · left
        rw [lastVal_cons, h1]
        simp
      · refine Or.inr ⟨?_, h3⟩
        rw [lastVal_cons, h1]
        have hba : ¬ b.1 = a := fun hc => h4 hc.symm
        simp [hba]

theorem nodupKeys_upsert {m : List (String × ℚ)} (k : String) (v : ℚ)
    (h : (keys m).Nodup) : (keys (upsert m k v)).Nodup := by
  unfold upsert
  split
  · rw [keys_map_subst]; exact h
  · next hk =>
    have hkeys : keys (m ++ [(k, v)]) = keys m ++ [k] := by simp [keys]
    rw [hkeys, List.nodup_append]
    refine ⟨h, List.nodup_singleton k, ?_⟩
    intro a ha hak
    simp only [List.mem_singleton] at hak
    exact hk (hak ▸ ha)

theorem nodupKeys_foldl_upsert :
    ∀ (B m : List (String × ℚ)), (keys m).Nodup →
      (keys (B.foldl (fun m r => upsert m r.1 r.2) m)).Nodup := by
  intro B
  induction B with
  | nil => intro m h; simpa using h
  | cons b B ih =>
    intro m h
    simp only [List.foldl_cons]
    exact ih _ (nodupKeys_upsert _ _ h)

theorem nodupKeys_toDict (l : List (String × ℚ)) : (keys (toDict l)).Nodup := by
  unfold toDict
  exact nodupKeys_foldl_upsert l [] (by simp [keys])

theorem foldl_upsert_append :
    ∀ (l acc : List (String × ℚ)), (keys (acc ++ l)).Nodup →
      l.foldl (fun m r => upsert m r.1 r.2) acc = acc ++ l := by
  intro l
  induction l with
  | nil => intro acc _; simp
  | cons b l ih =>
    intro acc h
    have hk : b.1 ∉ keys acc := by
      intro hmem
      have : ¬ (keys acc).Disjoint (keys (b :: l)) := by
        intro hdis
        exact hdis hmem (by simp [keys])
      simp [keys, List.nodup_append] at h
      exact this (by simp [keys]; exact h.2.2)
    have hup : upsert acc b.1 b.2 = acc ++ [b] := by
      unfold upsert
      rw [if_neg hk]
    simp only [List.foldl_cons]
    rw [hup, ih (acc ++ [b]) (by simpa [List.append_assoc] using h)]
    simp

theorem toDict_eq_self {m : List (String × ℚ)} (h : (keys m).Nodup) : toDict m = m := by
  unfold toDict
  simpa using foldl_upsert_append m [] (by simpa [keys] using h)

/-- Claim C7: merge is idempotent — re-applying the same batch to an
already merged series changes nothing, because every incoming timestamp is
already present with its last-applied value and the in-place dict update
leaves both the values and the key order unchanged. -/
theorem merge_idempotent (S B : List (String × ℚ)) : merge S B = merge (merge S B) B := by
  have hnd : (keys (merge S B)).Nodup := by
    unfold merge
    exact nodupKeys_foldl_upsert B (toDict S) (nodupKeys_toDict S)
  conv_rhs => rw [merge]
  rw [toDict_eq_self hnd,
    foldl_upsert_of_keys_subset B (merge S B)
      (fun a ha => mem_keys_foldl_upsert B (toDict S) a (Or.inl ha))]
  have hfix : ∀ p ∈ merge S B, (p.1, (lastVal B p.1).getD p.2) = p := by
    rintro ⟨a, w⟩ hp
    rcases mem_foldl_upsert B (toDict S) a w hp with h | ⟨h, _⟩ <;> simp [h]
  rw [List.map_congr_left hfix]
  simp

/-! ## Peak detection (claims C2 and C9) -/

theorem peakStep_inv (readings : List (ℚ × ℚ)) (mp : ℚ) (w : ℕ) (mg : ℚ)
    (acc : List (ℕ × ℚ × ℚ)) (i : ℕ) (b : ℚ)
    (hpw : acc.Pairwise (fun p q => mg < p.2.1 - q.2.1))
    (hb : ∀ p ∈ acc, p.2.1 ≤ b)
    (hbi : b ≤ (readings.getD i (0, 0)).1) :
    (peakStep readings mp w mg acc i).Pairwise (fun p q => mg < p.2.1 - q.2.1) ∧
      ∀ p ∈ peakStep readings mp w mg acc i, p.2.1 ≤ (readings.getD i (0, 0)).1 := by
  rcases acc with _ | ⟨p, rest⟩
  · simp only [peakStep]
    split
    · exact ⟨List.Pairwise.nil, by simp⟩
    · split
      · refine ⟨List.pairwise_singleton _ _, ?_⟩
        intro q hq
        simp only [List.mem_singleton] at hq
        subst hq
        exact le_refl _
      · exact ⟨List.Pairwise.nil, by simp⟩
  · have hrest := List.pairwise_cons.mp hpw
    have hpr : p.2.1 ≤ b := hb p (List.mem_cons_self _ _)
    simp only [peakStep]
    split
    · exact ⟨hpw, fun q hq => le_trans (hb q hq) hbi⟩
    · split
      · split
        · next hgap =>
          constructor
          · refine List.Pairwise.cons ?_ hpw
            intro q hq
            rcases List.mem_cons.mp hq with rfl | hq'
            · exact hgap
            · have h1 : mg < p.2.1 - q.2.1 := hrest.1 q hq'
              have h2 : q.2.1 ≤ b := hb q (List.mem_cons_of_mem _ hq')
              rcases le_or_lt 0 mg with hmg | hmg <;> linarith
          · intro q hq
            rcases List.mem_cons.mp hq with rfl | hq'
            · exact le_refl _
            · exact le_trans (hb q hq') hbi
        · split
          · constructor
            · refine List.Pairwise.cons ?_ hrest.2
              intro q hq
              have h1 : mg < p.2.1 - q.2.1 := hrest.1 q hq
              have h2 : p.2.1 ≤ (readings.getD i (0, 0)).1 := le_trans hpr hbi
              linarith
            · intro q hq
              rcases List.mem_cons.mp hq with rfl | hq'
              · exact le_refl _
              · exact le_trans (hb q (List.mem_cons_of_mem _ hq')) hbi
          · exact ⟨hpw, fun q hq => le_trans (hb q hq) hbi⟩
      · exact ⟨hpw, fun q hq => le_trans (hb q hq) hbi⟩

theorem foldl_peakStep_inv (readings : List (ℚ × ℚ)) (mp : ℚ) (w : ℕ) (mg : ℚ)
    (hmono : ∀ i j : ℕ, i ≤ j → j < readings.length →
      (readings.getD i (0, 0)).1 ≤ (readings.getD j (0, 0)).1) :
    ∀ (len s : ℕ) (acc : List (ℕ × ℚ × ℚ)) (b : ℚ),
      (s + len ≤ readings.length ∨ len = 0) →
      acc.Pairwise (fun p q => mg < p.2.1 - q.2.1) →
      (∀ p ∈ acc, p.2.1 ≤ b) →
      (len = 0 ∨ b ≤ (readings.getD s (0, 0)).1) →
      ((List.range' s len).foldl (peakStep readings mp w mg) acc).Pairwise
        (fun p q => mg < p.2.1 - q.2.1) := by
  intro len
  induction len with
  | zero => intro s acc b _ hpw _ _; simpa using hpw
  | succ n ih =>
    intro s acc b hlen hpw hb hbs
    have hlen' : s + (n + 1) ≤ readings.length := by
      rcases hlen with h | h
      · exact h
      · exact absurd h (Nat.succ_ne_zero n)
    have hbs' : b ≤ (readings.getD s (0, 0)).1 := by
      rcases hbs with h | h
      · exact absurd h (Nat.succ_ne_zero n)
      · exact h
    rw [List.range'_succ]
    simp only [List.foldl_cons]
    have hstep := peakStep_inv readings mp w mg acc s b hpw hb hbs'
    refine ih (s + 1) _ (readings.getD s (0, 0)).1 (Or.inl (by omega)) hstep.1 hstep.2 ?_
    rcases Nat.eq_zero_or_pos n with rfl | hn
    · exact Or.inl rfl
    · exact Or.inr (hmono s (s + 1) (Nat.le_succ s) (by omega))

/-- Claim C2: on a time-ordered series, any two peaks returned by
`find_peaks` are separated by strictly more than `min_gap`: a candidate
within the gap of the previously accepted peak either replaces it (when
strictly larger) or is dropped, so consecutive accepted timestamps — and
hence all pairs, the series being ordered — differ by more than `min_gap`. -/
theorem find_peaks_min_gap_separation (readings : List (ℚ × ℚ)) (min_peak : ℚ)
    (window : ℕ) (min_gap : ℚ)
    (hsorted : readings.Pairwise (fun a b => a.1 ≤ b.1)) :
    (find_peaks readings min_peak window min_gap).Pairwise
      (fun p q => min_gap < q.2.1 - p.2.1) := by
  have hmono : ∀ i j : ℕ, i ≤ j → j < readings.length →
      (readings.getD i (0, 0)).1 ≤ (readings.getD j (0, 0)).1 := by
    intro i j hij hj
    have hi : i < readings.length := lt_of_le_of_lt hij hj
    rcases eq_or_lt_of_le hij with rfl | hlt
    · exact le_refl _
    · rw [List.getD_eq_getElem readings (0, 0) hi, List.getD_eq_getElem readings (0, 0) hj]
      exact List.pairwise_iff_get.mp hsorted ⟨i, hi⟩ ⟨j, hj⟩ hlt
  unfold find_peaks
  rw [List.pairwise_reverse]
  exact foldl_peakStep_inv readings min_peak window min_gap hmono
    (readings.length - 2 * window) window [] (readings.getD window (0, 0)).1
    (by omega) List.Pairwise.nil (by simp) (Or.inr (le_refl _))

/-- Witness for C2 on the spec's example series (timestamps equal to
indices, so the series is time-ordered). -/
theorem find_peaks_min_gap_separation_witness :
    (find_peaks peakSeries 0 1 0).Pairwise (fun p q => (0 : ℚ) < q.2.1 - p.2.1) :=
  find_peaks_min_gap_separation peakSeries 0 1 0 (by decide)

/-- Claim C9: on the series `[0,1,5,9,5,1,0]` with `half_window = 1`,
`min_value = 0` and `min_gap = 0`, the detector returns exactly the single
peak at index 3 with value 9 (candidates need a full window on both sides,
value at least `min_value`, and value equal to the window maximum). -/
theorem find_peaks_example : find_peaks peakSeries 0 1 0 = [(3, 3, 9)] := by decide

/-! ## Decay fitting (claims C3 and C4) -/

theorem neg_one_div_pos {s : ℚ} (hs : s < 0) : 0 < -1 / s := by
  rw [neg_div, one_div, neg_pos]
  exact inv_lt_zero.mpr hs

theorem olsFit_invariants (ln2 pt pv bl amp : ℚ) (lp : List (ℚ × ℚ)) (f : DecayFit)
    (h : olsFit ln2 pt pv bl amp lp = some f) :
    (∃ s : ℚ, s < 0 ∧ f.tau_hours = -1 / s) ∧ 0 < f.tau_hours ∧
      f.half_life_hours = f.tau_hours * ln2 ∧ 1 / 2 < f.r_squared := by
  simp only [olsFit] at h
  split at h
  · exact Option.noConfusion h
  · split at h
    · exact Option.noConfusion h
    · split at h
      · exact Option.noConfusion h
      · next hslope =>
        split at h
        · split at h
          · next hrsq =>
            injection h with h
            subst h
            have hs := lt_of_not_ge hslope
            exact ⟨⟨_, hs, rfl⟩, neg_one_div_pos hs, rfl, hrsq⟩
          · exact Option.noConfusion h
        · split at h
          · next habs => exact absurd habs (by norm_num)
          · exact Option.noConfusion h

theorem fitPeak_through_olsFit (lg : ℚ → ℚ) (ln2 : ℚ) (readings : List (ℚ × ℚ))
    (min_rise : ℚ) (pk : (ℕ × ℚ × ℚ) × Option ℚ) (f : DecayFit)
    (h : fitPeak lg ln2 readings min_rise pk = some f) :
    ∃ (pt pv bl amp : ℚ) (lp : List (ℚ × ℚ)),
      olsFit ln2 pt pv bl amp lp = some f := by
  unfold fitPeak at h
  cases hb : baselineOf readings pk.1.1 with
  | none => rw [hb] at h; exact Option.noConfusion h
  | some baseline =>
    rw [hb] at h
    simp only [Option.elim] at h
    unfold fitFromBaseline at h
    by_cases h1 : pk.1.2.2 - baseline < min_rise
    · rw [if_pos h1] at h; exact Option.noConfusion h
    · rw [if_neg h1] at h
      by_cases h2 : (decayPoints readings pk.1.1 pk.1.2.1 min_rise pk.2).length < 6
      · rw [if_pos h2] at h; exact Option.noConfusion h
      · rw [if_neg h2] at h
        exact ⟨_, _, _, _, _, h⟩

/-- Claim C3: every fit returned by `_fit_exponential_decay` comes from a
strictly negative log-linear slope `s` with `tau_hours = -1/s`, hence has
`tau_hours > 0`; its half-life is `tau_hours · ln 2`; and its `R²` exceeds
`1/2` — fits with nonnegative slope or `R² ≤ 1/2` are never included.
This holds for every series, peak list, threshold and logarithm. -/
theorem fit_exponential_decay_invariants (lg : ℚ → ℚ) (ln2 : ℚ)
    (readings : List (ℚ × ℚ)) (peaks : List (ℕ × ℚ × ℚ)) (min_rise : ℚ)
    (f : DecayFit) (hf : f ∈ fit_exponential_decay lg ln2 readings peaks min_rise) :
    (∃ s : ℚ, s < 0 ∧ f.tau_hours = -1 / s) ∧ 0 < f.tau_hours ∧
      f.half_life_hours = f.tau_hours * ln2 ∧ 1 / 2 < f.r_squared := by
  rcases List.mem_filterMap.mp hf with ⟨x, -, hfx⟩
  rcases fitPeak_through_olsFit lg ln2 readings min_rise x f hfx with
    ⟨pt, pv, bl, amp, lp, holst⟩
  exact olsFit_invariants ln2 pt pv bl amp lp f holst


/-- Witness for C3: on the synthetic series the fitter returns exactly one
fit, whose invariants follow by applying the theorem. -/
theorem fit_exponential_decay_invariants_witness :
    (∃ s : ℚ, s < 0 ∧ exFit.tau_hours = -1 / s) ∧ 0 < exFit.tau_hours ∧
      exFit.half_life_hours = exFit.tau_hours * (7 / 10) ∧ 1 / 2 < exFit.r_squared :=
  fit_exponential_decay_invariants exLog (7 / 10) exReadings exPeaks 1 exFit
    (by with_unfolding_all decide)

/-- Claim C4 is wrong on the code (code bug): for a peak at index `idx < 12`
the slice `readings[max(0, idx - 84):idx - 12]` has a negative Python stop
bound, which counts from the end of the list, so the baseline window wraps
around and includes the peak and post-peak points.  Here the peak is at
index 6 of a 14-point series, every pre-peak value is at least 1, yet the
baseline is −5 — the value at index 7, immediately after the peak —
contradicting both the claim and the source's own comment that the
baseline is the minimum value before the peak. -/
theorem baseline_uses_post_peak_point :
    baselineOf c4Readings 6 = some (-5) ∧
      (∀ v ∈ (c4Readings.take 6).map Prod.snd, 1 ≤ v) ∧
      c4Readings.getD 7 (0, 0) = (14, -5) := by
  refine ⟨by with_unfolding_all decide, by with_unfolding_all decide, by decide⟩

/-! ## Regression (claims C1, C6 and C10) -/

theorem list_sum_const {l : List ℚ} {c : ℚ} (h : ∀ x ∈ l, x = c) :
    l.sum = (l.length : ℚ) * c := by
  induction l with
  | nil => simp
  | cons a l ih =>
    have ha := h a (List.mem_cons_self a l)
    have ih' := ih (fun x hx => h x (List.mem_cons_of_mem a hx))
    simp only [List.sum_cons, List.length_cons, ha, ih']
    push_cast
    ring

theorem meanOf_const {l : List ℚ} {c : ℚ} (hne : l ≠ []) (h : ∀ x ∈ l, x = c) :
    meanOf l = c := by
  unfold meanOf
  rw [list_sum_const h]
  have hl : (l.length : ℚ) ≠ 0 := Nat.cast_ne_zero.mpr (List.length_pos.mpr hne).ne'
  exact mul_div_cancel_left₀ c hl

theorem ssOf_eq_zero {l : List ℚ} {c : ℚ} (h : ∀ x ∈ l, x = c) : ssOf l c = 0 := by
  unfold ssOf
  apply List.sum_eq_zero
  intro x hx
  rcases List.mem_map.mp hx with ⟨y, hy, rfl⟩
  rw [h y hy]
  ring

/-- Claim C10: the regression divides by `Σ(x−x̄)²` and by the `R²` and
correlation denominators without any guard: with at least 100 paired
samples whose x-values are all equal (or whose y-values are all equal),
`calculate_model_parameters` has no defined result — the embedding's
`undefined` outcome, Python's `ZeroDivisionError` — instead of a model or
one of the specified errors. -/
theorem fit_regression_degenerate_undefined (pd : List (ℚ × ℚ)) (c : ℚ)
    (hn : 100 ≤ pd.length)
    (h : (∀ p ∈ pd, p.1 = c) ∨ (∀ p ∈ pd, p.2 = c)) :
    fit_regression pd = FitResult.undefined := by
  have hne : pd ≠ [] := by
    intro he
    rw [he] at hn
    simp at hn
  unfold fit_regression
  rw [if_neg (not_lt.mpr hn)]
  rcases h with hx | hy
  · have hall : ∀ x ∈ pd.map Prod.fst, x = c := by
      intro x hxm
      rcases List.mem_map.mp hxm with ⟨p, hp, rfl⟩
      exact hx p hp
    have hmean : meanOf (pd.map Prod.fst) = c :=
      meanOf_const (fun hm => hne (List.map_eq_nil_iff.mp hm)) hall
    rw [hmean, if_pos (ssOf_eq_zero hall)]
  · have hall : ∀ x ∈ pd.map Prod.snd, x = c := by
      intro x hxm
      rcases List.mem_map.mp hxm with ⟨p, hp, rfl⟩
      exact hy p hp
    have hmean : meanOf (pd.map Prod.snd) = c :=
      meanOf_const (fun hm => hne (List.map_eq_nil_iff.mp hm)) hall
    by_cases h1 : ssOf (pd.map Prod.fst) (meanOf (pd.map Prod.fst)) = 0
    · rw [if_pos h1]
    · rw [if_neg h1, hmean, if_pos (ssOf_eq_zero hall)]

/-- Witness for C10: 100 identical pairs make the slope denominator zero. -/
theorem fit_regression_degenerate_undefined_witness :
    100 ≤ pdConst.length ∧ fit_regression pdConst = FitResult.undefined :=
  ⟨by with_unfolding_all decide,
   fit_regression_degenerate_undefined pdConst 5 (by with_unfolding_all decide)
     (Or.inl (by with_unfolding_all decide))⟩

theorem fit_regression_not_insufficient (pd : List (ℚ × ℚ)) (h : ¬ pd.length < 100) :
    fit_regression pd = FitResult.undefined ∨ ∃ m, fit_regression pd = FitResult.ok m := by
  unfold fit_regression
  rw [if_neg h]
  split
  · exact Or.inl rfl
  · split
    · exact Or.inl rfl
    · split
      · exact Or.inl rfl
      · split
        · exact Or.inr ⟨_, rfl⟩
        · exact Or.inl rfl

/-- Claim C1: `calculate_model_parameters` raises its insufficient-data
`ValueError` exactly when fewer than 100 paired `(farmoor, flow)` samples
exist: below 100 it always yields that error, and at 100 or more it never
does — it returns a model whenever the computation is defined (no division
by zero occurs). -/
theorem calculate_model_parameters_insufficient_iff
    (g o f : List (String × ℚ)) :
    ((paired_samples g o f).length < 100 →
      calculate_model_parameters g o f = FitResult.insufficient) ∧
    (100 ≤ (paired_samples g o f).length →
      calculate_model_parameters g o f ≠ FitResult.insufficient) ∧
    (100 ≤ (paired_samples g o f).length →
      calculate_model_parameters g o f ≠ FitResult.undefined →
      ∃ m, calculate_model_parameters g o f = FitResult.ok m) := by
  refine ⟨?_, ?_, ?_⟩
  · intro h
    unfold calculate_model_parameters fit_regression
    rw [if_pos h]
  · intro h
    rcases fit_regression_not_insufficient _ (not_lt.mpr h) with h1 | ⟨m, h1⟩ <;>
    · unfold calculate_model_parameters
      rw [h1]
      intro hc
      exact FitResult.noConfusion hc
  · intro h hnu
    rcases fit_regression_not_insufficient _ (not_lt.mpr h) with h1 | ⟨m, h1⟩
    · exact absurd h1 hnu
    · exact ⟨m, h1⟩

/-- Witness for C1: a concrete 100-timestamp input where the model is
returned, and an empty input where the insufficient-data error is raised. -/
theorem calculate_model_parameters_insufficient_iff_witness :
    calculate_model_parameters [] [] [] = FitResult.insufficient ∧
    calculate_model_parameters exG exO exF ≠ FitResult.insufficient ∧
    ∃ m, calculate_model_parameters exG exO exF = FitResult.ok m :=
  ⟨(calculate_model_parameters_insufficient_iff [] [] []).1 (by with_unfolding_all decide),
   (calculate_model_parameters_insufficient_iff exG exO exF).2.1 (by with_unfolding_all decide),
   (calculate_model_parameters_insufficient_iff exG exO exF).2.2
     (by with_unfolding_all decide) (by with_unfolding_all decide)⟩

/-- Claim C6 is wrong on the code (corrected): the threshold inversion is
an unguarded division, so a slope of exactly zero yields Python's generic
`ZeroDivisionError` (the embedding's undefined outcome, aborting the whole
of `calculate_model_parameters`), not a dedicated `DegenerateModel` error
confined to the threshold computation.  `pdZeroSlope` passes every earlier
guard — nonconstant x and y — yet its zero covariance makes the slope 0. -/
theorem slope_zero_generic_error_counterexample :
    fit_regression pdZeroSlope = FitResult.undefined ∧
      invert 0 (1 / 2) (45 / 100) = none := by
  exact ⟨by with_unfolding_all decide, by with_unfolding_all decide⟩

/-- Amended C6: `invert` computes `(y_target − intercept) / slope` for
every target whenever `slope ≠ 0`, and is undefined (a generic division
error) when `slope = 0`. -/
theorem invert_amended (slope intercept y_target : ℚ) :
    (slope ≠ 0 → invert slope intercept y_target = some ((y_target - intercept) / slope)) ∧
    (slope = 0 → invert slope intercept y_target = none) := by
  unfold invert pyDiv
  constructor
  · intro h
    rw [if_neg h]
  · intro h
    rw [if_pos h]

/-- Witness for the amended C6. -/
theorem invert_amended_witness :
    invert 2 3 4 = some ((4 - 3) / 2) ∧ invert 0 3 4 = none :=
  ⟨(invert_amended 2 3 4).1 (by norm_num), (invert_amended 0 3 4).2 rfl⟩

/-! ## Decay summary (claim C5) -/

/-- Claim C5 is wrong on the code (corrected): for an even number of fits
the source returns `sorted[len // 2]`, the upper middle element, not the
median — with taus 10 and 20 it returns 20 while the median is 15. -/
theorem summarise_decay_median_counterexample :
    (summarise_decay 1 [exFitA, exFitB] 7 0).tau_hours_median ≠
      medianSpec ([exFitA, exFitB].map DecayFit.tau_hours) := by
  with_unfolding_all decide

/-- Amended C5: `_summarise_decay` returns the mean of the fits'
`tau_hours` and `half_life_hours` and, as "median", the element at index
`⌊n/2⌋` of a sorted arrangement (the upper median — the true median for
odd counts), together with the supplied baseline and the fit count; on the
empty list it returns the caller-supplied `default_tau` as both τ values
and `default_tau · ln 2` as both half-life values with count 0, without
failing. -/
theorem summarise_decay_spec (ln2 default_tau b : ℚ) (fits : List DecayFit) :
    (fits = [] → summarise_decay ln2 fits default_tau b =
      ⟨default_tau, default_tau, default_tau * ln2, default_tau * ln2, b, 0⟩) ∧
    (fits ≠ [] →
      (summarise_decay ln2 fits default_tau b).tau_hours_mean =
        (fits.map DecayFit.tau_hours).sum / (fits.length : ℚ) ∧
      (summarise_decay ln2 fits default_tau b).half_life_hours_mean =
        (fits.map DecayFit.half_life_hours).sum / (fits.length : ℚ) ∧
      (∃ s : List ℚ, s.Perm (fits.map DecayFit.tau_hours) ∧ s.Sorted (· ≤ ·) ∧
        (summarise_decay ln2 fits default_tau b).tau_hours_median =
          s.getD (fits.length / 2) 0) ∧
      (∃ s : List ℚ, s.Perm (fits.map DecayFit.half_life_hours) ∧ s.Sorted (· ≤ ·) ∧
        (summarise_decay ln2 fits default_tau b).half_life_hours_median =
          s.getD (fits.length / 2) 0) ∧
      (summarise_decay ln2 fits default_tau b).baseline = b ∧
      (summarise_decay ln2 fits default_tau b).n_peaks = fits.length) := by
  constructor
  · intro h
    subst h
    simp [summarise_decay]
  · intro h
    simp only [summarise_decay, if_neg h]
    refine ⟨by simp, by simp, ?_, ?_, by trivial, by trivial⟩
    · exact ⟨(fits.map DecayFit.tau_hours).insertionSort (· ≤ ·),
        List.perm_insertionSort _ _, List.sorted_insertionSort _ _, by simp⟩
    · exact ⟨(fits.map DecayFit.half_life_hours).insertionSort (· ≤ ·),
        List.perm_insertionSort _ _, List.sorted_insertionSort _ _, by simp⟩

/-- Witness for the amended C5, at the empty list and at a concrete
two-fit list. -/
theorem summarise_decay_spec_witness :
    (summarise_decay 1 [] 5 3 = ⟨5, 5, 5 * 1, 5 * 1, 3, 0⟩) ∧
    ((summarise_decay 1 [exFitA, exFitB] 5 3).tau_hours_mean =
        ([exFitA, exFitB].map DecayFit.tau_hours).sum /
          (([exFitA, exFitB] : List DecayFit).length : ℚ) ∧
      (summarise_decay 1 [exFitA, exFitB] 5 3).half_life_hours_mean =
        ([exFitA, exFitB].map DecayFit.half_life_hours).sum /
          (([exFitA, exFitB] : List DecayFit).length : ℚ) ∧
      (∃ s : List ℚ, s.Perm ([exFitA, exFitB].map DecayFit.tau_hours) ∧
        s.Sorted (· ≤ ·) ∧
        (summarise_decay 1 [exFitA, exFitB] 5 3).tau_hours_median =
          s.getD (([exFitA, exFitB] : List DecayFit).length / 2) 0) ∧
      (∃ s : List ℚ, s.Perm ([exFitA, exFitB].map DecayFit.half_life_hours) ∧
        s.Sorted (· ≤ ·) ∧
        (summarise_decay 1 [exFitA, exFitB] 5 3).half_life_hours_median =
          s.getD (([exFitA, exFitB] : List DecayFit).length / 2) 0) ∧
      (summarise_decay 1 [exFitA, exFitB] 5 3).baseline = 3 ∧
      (summarise_decay 1 [exFitA, exFitB] 5 3).n_peaks =
        ([exFitA, exFitB] : List DecayFit).length) :=
  ⟨(summarise_decay_spec 1 5 3 []).1 rfl,
   (summarise_decay_spec 1 5 3 [exFitA, exFitB]).2 (by simp)⟩

/-! ## Percentile (claim C8) -/

theorem calculate_percentile_eq_spec (values : List ℚ) (p : ℚ)
    (hne : values ≠ []) (hp0 : 0 ≤ p) (hp1 : p ≤ 100) :
    calculate_percentile values p = some (percentileSpec values p) := by
  simp only [calculate_percentile, percentileSpec, if_neg hne]
  set s := values.insertionSort (· ≤ ·) with hs
  set idx := (p / 100) * ((s.length : ℚ) - 1) with hidx
  have hn1 : 1 ≤ s.length := by
    rw [hs, List.length_insertionSort]
    exact List.length_pos.mpr hne
  have hn1q : (1 : ℚ) ≤ (s.length : ℚ) := by exact_mod_cast hn1
  have hi0 : 0 ≤ idx := by
    apply mul_nonneg (div_nonneg hp0 (by norm_num))
    linarith
  have hile : idx ≤ (s.length : ℚ) - 1 := by
    have hp100 : p / 100 ≤ 1 := (div_le_one (by norm_num)).mpr hp1
    calc idx = p / 100 * ((s.length : ℚ) - 1) := rfl
      _ ≤ 1 * ((s.length : ℚ) - 1) := by
          apply mul_le_mul_of_nonneg_right hp100
          linarith
      _ = (s.length : ℚ) - 1 := one_mul _
  have hpyint : pyInt idx = ⌊idx⌋ := by
    unfold pyInt
    rw [if_neg (not_lt.mpr hi0)]
  have hfl0 : 0 ≤ ⌊idx⌋ := Int.floor_nonneg.mpr hi0
  have hflle : ⌊idx⌋ ≤ (s.length : ℤ) - 1 := by
    have hmono := Int.floor_mono hile
    rwa [show ((s.length : ℚ) - 1 : ℚ) = (((s.length : ℤ) - 1 : ℤ) : ℚ) by push_cast; ring,
      Int.floor_intCast] at hmono
  rw [hpyint]
  by_cases hclamp : (s.length : ℤ) ≤ ⌊idx⌋ + 1
  · rw [if_pos hclamp]
    have hfleq : ⌊idx⌋ = (s.length : ℤ) - 1 := le_antisymm hflle (by omega)
    have hidxeq : idx = (s.length : ℚ) - 1 := by
      have h1 : ((⌊idx⌋ : ℤ) : ℚ) ≤ idx := Int.floor_le idx
      rw [hfleq] at h1
      push_cast at h1
      linarith
    have hceil : ⌈idx⌉ = (s.length : ℤ) - 1 := by
      rw [hidxeq,
        show ((s.length : ℚ) - 1 : ℚ) = (((s.length : ℤ) - 1 : ℤ) : ℚ) by push_cast; ring,
        Int.ceil_intCast]
    have hweight : idx - ((⌊idx⌋ : ℤ) : ℚ) = 0 := by
      rw [hfleq, hidxeq]
      push_cast
      ring
    rw [hweight, hfleq, hceil]
    have htn : ((s.length : ℤ) - 1).toNat = s.length - 1 := by omega
    rw [htn]
    unfold pyGet
    rw [if_pos (by norm_num : (-1 : ℤ) < 0)]
    have htn2 : s.length - (-(-1 : ℤ)).toNat = s.length - 1 := by omega
    rw [htn2, min_self]
    congr 1
    ring
  · rw [if_neg hclamp]
    have hg1 : pyGet s ⌊idx⌋ = s.getD (⌊idx⌋).toNat 0 := by
      unfold pyGet
      rw [if_neg (not_lt.mpr hfl0)]
    have hg2 : pyGet s (⌊idx⌋ + 1) = s.getD (⌊idx⌋ + 1).toNat 0 := by
      unfold pyGet
      rw [if_neg (by omega)]
    rw [hg1, hg2]
    by_cases hw : idx = ((⌊idx⌋ : ℤ) : ℚ)
    · have hceil : ⌈idx⌉ = ⌊idx⌋ := by rw [hw, Int.ceil_intCast, Int.floor_intCast]
      rw [hceil]
      have hmin : min (⌊idx⌋).toNat (s.length - 1) = (⌊idx⌋).toNat := by
        apply min_eq_left
        omega
      rw [hmin]
      have hw0 : idx - ((⌊idx⌋ : ℤ) : ℚ) = 0 := sub_eq_zero.mpr hw
      rw [hw0]
      congr 1
      ring
    · have hceil : ⌈idx⌉ = ⌊idx⌋ + 1 := by
        have h1 : ⌈idx⌉ ≤ ⌊idx⌋ + 1 := Int.ceil_le_floor_add_one idx
        have h2 : ⌊idx⌋ < ⌈idx⌉ := by
          rcases lt_or_le ⌊idx⌋ ⌈idx⌉ with h | h
          · exact h
          · exfalso
            apply hw
            have hle : idx ≤ ((⌊idx⌋ : ℤ) : ℚ) :=
              le_trans (Int.le_ceil idx) (by exact_mod_cast h)
            exact le_antisymm hle (Int.floor_le idx)
        omega
      rw [hceil]
      have hmin : min (⌊idx⌋ + 1).toNat (s.length - 1) = (⌊idx⌋ + 1).toNat := by
        apply min_eq_left
        omega
      rw [hmin]
      congr 1
      ring

/-- Claim C8: on a nonempty list and `p ∈ [0, 100]`,
`calculate_percentile` computes exactly the spec's linear interpolation
between the sorted elements at `floor(index)` and `ceil(index)` with
`index = (p/100)·(n−1)`, clamped to the last element; in particular
`[10,20,30,40]` gives p50 = 25, p0 = 10 and p100 = 40. -/
theorem calculate_percentile_spec :
    (∀ (values : List ℚ) (p : ℚ), values ≠ [] → 0 ≤ p → p ≤ 100 →
      calculate_percentile values p = some (percentileSpec values p)) ∧
    calculate_percentile [10, 20, 30, 40] 50 = some 25 ∧
    calculate_percentile [10, 20, 30, 40] 0 = some 10 ∧
    calculate_percentile [10, 20, 30, 40] 100 = some 40 :=
  ⟨calculate_percentile_eq_spec, by with_unfolding_all decide,
    by with_unfolding_all decide, by with_unfolding_all decide⟩

/-- Witness for C8. -/
theorem calculate_percentile_spec_witness :
    calculate_percentile [10, 20, 30, 40] 50 =
      some (percentileSpec [10, 20, 30, 40] 50) :=
  calculate_percentile_spec.1 [10, 20, 30, 40] 50 (by simp) (by norm_num) (by norm_num)
